import Mathlib

/-!
Verification of the `queries.js` script of the `plp_bookstore` repository.

The script runs a fixed sequence of MongoDB operations against a single
`books` collection.  We embed the collection as a list of documents and each
operation as a Lean function implementing the documented semantics of the
MongoDB call issued by the script (`find`/`sort`/`limit`/`skip`, `updateOne`,
`deleteOne`, `findOne`, `aggregate` with `$group`/`$project`/`$sort`).  The
script's `try`/`catch`/`finally` control flow is embedded as an interpreter
that runs a list of fallible steps and records an event trace (connection
opened, step executed, error logged, connection closed).
-/

namespace Bookstore

/-- A document of the `books` collection.  MongoDB stores a unique `_id` with
every document (the script's projections mention `_id` explicitly); the
remaining fields are the ones the script and the seeded data use.  Prices are
embedded as rationals, years as integers. -/
structure Book where
  _id : Nat
  title : String
  author : String
  genre : String
  published_year : Int
  price : ℚ
  in_stock : Bool
  deriving DecidableEq

/-- A state of the `books` collection: the sequence of its documents. -/
abbrev Collection := List Book

/-! ### Task 2: basic CRUD operations -/

/-- `find({ genre: "Fantasy" })` — all books of a given genre, in collection
order. -/
def findByGenre (g : String) (c : Collection) : List Book :=
  c.filter (fun b => decide (b.genre = g))

/-- `find({ published_year: { $gt: y } })` — books published strictly after a
given year. -/
def findAfterYear (y : Int) (c : Collection) : List Book :=
  c.filter (fun b => decide (y < b.published_year))

/-- `find({ author: a })` — books by a given author. -/
def findByAuthor (a : String) (c : Collection) : List Book :=
  c.filter (fun b => decide (b.author = a))

/-- Result object of `updateOne`: the matched and modified counts reported by
the driver. -/
structure UpdateResult where
  matchedCount : Nat
  modifiedCount : Nat
  deriving DecidableEq

/-- `updateOne({ title: t }, { $set: { price: p } })` — set the price of the
first document whose title is `t`, leaving every other document untouched.
`modifiedCount` is 1 only when the matched document's price actually changes. -/
def updateOne (t : String) (p : ℚ) : Collection → UpdateResult × Collection
  | [] => (⟨0, 0⟩, [])
  | b :: rest =>
    if b.title = t then
      (⟨1, if b.price = p then 0 else 1⟩, { b with price := p } :: rest)
    else
      ((updateOne t p rest).1, b :: (updateOne t p rest).2)

/-- `findOne({ title: t })` — the first document with the given title, if any. -/
def findOne (t : String) : Collection → Option Book
  | [] => none
  | b :: rest => if b.title = t then some b else findOne t rest

/-- Result object of `deleteOne`: the deleted count reported by the driver. -/
structure DeleteResult where
  deletedCount : Nat
  deriving DecidableEq

/-- `deleteOne({ title: t })` — remove the first document whose title is `t`. -/
def deleteOne (t : String) : Collection → DeleteResult × Collection
  | [] => (⟨0⟩, [])
  | b :: rest =>
    if b.title = t then (⟨1⟩, rest)
    else ((deleteOne t rest).1, b :: (deleteOne t rest).2)

/-! ### Task 3: advanced queries -/

/-- `find({ in_stock: true, published_year: { $gt: 2010 } })`. -/
def inStockRecent (c : Collection) : List Book :=
  c.filter (fun b => b.in_stock && decide ((2010 : Int) < b.published_year))

/-- Projection `{ title: 1, author: 1, price: 1, _id: 0 }`. -/
structure TitleAuthorPrice where
  title : String
  author : String
  price : ℚ
  deriving DecidableEq

/-- Projection of a document to its `title`, `author` and `price` fields. -/
def projTitleAuthorPrice (b : Book) : TitleAuthorPrice :=
  ⟨b.title, b.author, b.price⟩

/-- `find({ genre: "Fantasy" }, { projection: { title: 1, author: 1, price: 1,
_id: 0 } })`. -/
def projectedBooks (c : Collection) : List TitleAuthorPrice :=
  (findByGenre "Fantasy" c).map projTitleAuthorPrice

/-- Comparison of documents by ascending price, the sort key of
`sort({ price: 1 })`. -/
def priceLe (a b : Book) : Prop := a.price ≤ b.price

/-- Comparison of documents by descending price, the sort key of
`sort({ price: -1 })`. -/
def priceGe (a b : Book) : Prop := b.price ≤ a.price

instance : DecidableRel priceLe :=
  fun a b => inferInstanceAs (Decidable (a.price ≤ b.price))

instance : DecidableRel priceGe :=
  fun a b => inferInstanceAs (Decidable (b.price ≤ a.price))

instance : IsTotal Book priceLe := ⟨fun a b => le_total a.price b.price⟩

instance : IsTrans Book priceLe := ⟨fun _ _ _ h₁ h₂ => le_trans h₁ h₂⟩

instance : IsTotal Book priceGe := ⟨fun a b => le_total b.price a.price⟩

instance : IsTrans Book priceGe := ⟨fun _ _ _ h₁ h₂ => le_trans h₂ h₁⟩

/-- Projection `{ title: 1, price: 1, _id: 0 }`. -/
structure TitlePrice where
  title : String
  price : ℚ
  deriving DecidableEq

/-- Projection of a document to its `title` and `price` fields. -/
def projTitlePrice (b : Book) : TitlePrice := ⟨b.title, b.price⟩

/-- `find({}, { projection: { title: 1, price: 1, _id: 0 } }).sort({ price: 1 })
.limit(5)` — ascending-price read, capped at 5 documents.  The database sorts
the documents, caps the cursor, and projects each returned document. -/
def sortedAsc (c : Collection) : List TitlePrice :=
  ((c.insertionSort priceLe).take 5).map projTitlePrice

/-- `find({}, { projection: { title: 1, price: 1, _id: 0 } }).sort({ price: -1 })
.limit(5)` — descending-price read, capped at 5 documents. -/
def sortedDesc (c : Collection) : List TitlePrice :=
  ((c.insertionSort priceGe).take 5).map projTitlePrice

/-- Comparison of documents by ascending title, the sort key of
`sort({ title: 1 })` used by the pagination step. -/
def titleLe (a b : Book) : Prop := a.title ≤ b.title

instance : DecidableRel titleLe :=
  fun a b => inferInstanceAs (Decidable (a.title ≤ b.title))

instance : IsTotal Book titleLe := ⟨fun a b => le_total a.title b.title⟩

instance : IsTrans Book titleLe := ⟨fun _ _ _ h₁ h₂ => le_trans h₁ h₂⟩

/-- The title-sorted collection, the cursor order underlying both pagination
reads. -/
def sortByTitle (c : Collection) : List Book :=
  c.insertionSort titleLe

/-- The documents returned by `find({}).sort({ title: 1 }).limit(5).skip(k)`:
MongoDB applies the sort, then the skip, then the limit, whatever the order in
which the cursor modifiers were chained. -/
def pageDocs (c : Collection) (k : Nat) : List Book :=
  ((sortByTitle c).drop k).take 5

/-- Projection `{ title: 1, author: 1, _id: 0 }`. -/
structure TitleAuthor where
  title : String
  author : String
  deriving DecidableEq

/-- Projection of a document to its `title` and `author` fields. -/
def projTitleAuthor (b : Book) : TitleAuthor := ⟨b.title, b.author⟩

/-- A pagination read as the script issues it: page of 5 documents at skip
offset `k`, projected to `title` and `author`. -/
def page (c : Collection) (k : Nat) : List TitleAuthor :=
  (pageDocs c k).map projTitleAuthor

/-- The first pagination read (`limit(5).skip(0)`). -/
def page1 (c : Collection) : List TitleAuthor := page c 0

/-- The second pagination read (`limit(5).skip(5)`). -/
def page2 (c : Collection) : List TitleAuthor := page c 5

/-- The document pages at skip offsets `0, 5, …, 5*(n-1)`, the sequence of
pages of size 5 taken over all skip offsets. -/
def pages (c : Collection) (n : Nat) : List (List Book) :=
  (List.range n).map (fun i => pageDocs c (5 * i))

/-! ### Task 4: aggregation pipelines

A `$group` stage streams the input documents in order; for each document it
either updates the accumulators of the group of its key or, on the first
document of a key, opens a new group.  We embed the stage as a left fold over
an association list of per-key accumulator values. -/

/-- Update the (first, hence unique) entry of key `k` of an accumulator
association list. -/
def updateGroup {κ β : Type} [DecidableEq κ] (k : κ) (u : β → β) :
    List (κ × β) → List (κ × β)
  | [] => []
  | e :: rest =>
    if e.1 = k then (e.1, u e.2) :: rest else e :: updateGroup k u rest

/-- Feed one document into a `$group` stage: update the accumulator of its
key, or open a new group at the end of the list on a key's first document. -/
def groupStep {κ β : Type} [DecidableEq κ] (keyOf : Book → κ) (init : Book → β)
    (upd : β → Book → β) (acc : List (κ × β)) (b : Book) : List (κ × β) :=
  if keyOf b ∈ acc.map Prod.fst then
    updateGroup (keyOf b) (fun v => upd v b) acc
  else
    acc ++ [(keyOf b, init b)]

/-- A `$group` stage over a collection: fold every document into the
accumulator association list, starting from no groups. -/
def groupFold {κ β : Type} [DecidableEq κ] (keyOf : Book → κ) (init : Book → β)
    (upd : β → Book → β) (c : Collection) : List (κ × β) :=
  c.foldl (groupStep keyOf init upd) []

/-- Output document of the average-price aggregation: genre key, `$avg` of
prices, `$sum: 1` count. -/
structure GenreStats where
  _id : String
  averagePrice : ℚ
  bookCount : Nat
  deriving DecidableEq

/-- Comparison of genre-stats documents by descending average price, the sort
key of the `$sort: { averagePrice: -1 }` stage. -/
def avgGe (x y : GenreStats) : Prop := y.averagePrice ≤ x.averagePrice

instance : DecidableRel avgGe :=
  fun x y => inferInstanceAs (Decidable (y.averagePrice ≤ x.averagePrice))

instance : IsTotal GenreStats avgGe := ⟨fun x y => le_total y.averagePrice x.averagePrice⟩

instance : IsTrans GenreStats avgGe := ⟨fun _ _ _ h₁ h₂ => le_trans h₂ h₁⟩

/-- The aggregation `[{ $group: { _id: "$genre", averagePrice: { $avg: "$price" },
bookCount: { $sum: 1 } } }, { $sort: { averagePrice: -1 } }]`.  `$avg` keeps a
running sum and count and divides at the end of the group. -/
def avgPriceByGenre (c : Collection) : List GenreStats :=
  ((groupFold Book.genre (fun b => ((b.price, 1) : ℚ × Nat))
      (fun v b => (v.1 + b.price, v.2 + 1)) c).map
    (fun e => ⟨e.1, e.2.1 / (e.2.2 : ℚ), e.2.2⟩)).insertionSort avgGe

/-- Output document of the author aggregation. -/
structure AuthorStats where
  _id : String
  bookCount : Nat
  deriving DecidableEq

/-- Comparison of author-stats documents by descending count. -/
def countGe (x y : AuthorStats) : Prop := y.bookCount ≤ x.bookCount

instance : DecidableRel countGe :=
  fun x y => inferInstanceAs (Decidable (y.bookCount ≤ x.bookCount))

instance : IsTotal AuthorStats countGe := ⟨fun x y => le_total y.bookCount x.bookCount⟩

instance : IsTrans AuthorStats countGe := ⟨fun _ _ _ h₁ h₂ => le_trans h₂ h₁⟩

/-- The aggregation `[{ $group: { _id: "$author", bookCount: { $sum: 1 } } },
{ $sort: { bookCount: -1 } }, { $limit: 3 }]`. -/
def topAuthor (c : Collection) : List AuthorStats :=
  (((groupFold Book.author (fun _ => 1) (fun v _ => v + 1) c).map
      (fun e => ⟨e.1, e.2⟩)).insertionSort countGe).take 3

/-- The `$project` stage's derived field
`decade: { $subtract: ["$published_year", { $mod: ["$published_year", 10] }] }`.
MongoDB's `$mod` is the C-style remainder, truncating toward zero. -/
def decade (b : Book) : Int :=
  b.published_year - b.published_year.tmod 10

/-- Output document of the decade aggregation: decade key, `$sum: 1` count and
the `$push`-accumulated list of titles. -/
structure DecadeGroup where
  _id : Int
  bookCount : Nat
  books : List String
  deriving DecidableEq

/-- Comparison of decade groups by ascending key, the sort key of the final
`$sort: { _id: 1 }` stage. -/
def decadeLe (x y : DecadeGroup) : Prop := x._id ≤ y._id

instance : DecidableRel decadeLe :=
  fun x y => inferInstanceAs (Decidable (x._id ≤ y._id))

instance : IsTotal DecadeGroup decadeLe := ⟨fun x y => le_total x._id y._id⟩

instance : IsTrans DecadeGroup decadeLe := ⟨fun _ _ _ h₁ h₂ => le_trans h₁ h₂⟩

/-- The aggregation `[{ $project: { title: 1, published_year: 1, decade: … } },
{ $group: { _id: "$decade", bookCount: { $sum: 1 }, books: { $push: "$title" } } },
{ $sort: { _id: 1 } }]`.  `$push` appends each streamed document's title to the
group's list. -/
def booksByDecade (c : Collection) : List DecadeGroup :=
  ((groupFold decade (fun b => (1, [b.title]))
      (fun v b => (v.1 + 1, v.2 ++ [b.title])) c).map
    (fun e => ⟨e.1, e.2.1, e.2.2⟩)).insertionSort decadeLe

/-! ### The script's control flow

`runQueries` opens a connection, runs the steps of the `try` block in order,
logs in the single `catch` the first error raised (which aborts the remaining
steps), and closes the connection in the `finally` block.  The interpreter is
generic in the state and error types and records an event trace. -/

/-- Observable events of a run of the script. -/
inductive Event where
  | opened
  | exec (i : Nat)
  | logged
  | closed
  deriving DecidableEq

/-- One step of the `try` block: it reads or transforms the database state, or
raises an error. -/
abbrev Step (St E : Type) := St → Except E St

/-- Run the steps of the `try` block in order, numbering them from `i`: each
executed step emits its event; the first error stops execution and is
returned with the state reached so far. -/
def runSteps {St E : Type} : List (Step St E) → Nat → St →
    List Event × St × Option E
  | [], _, s => ([], s, none)
  | f :: rest, i, s =>
    match f s with
    | .ok s' =>
        (Event.exec i :: (runSteps rest (i + 1) s').1, (runSteps rest (i + 1) s').2)
    | .error e => ([Event.exec i], s, some e)

/-- The pure result of the `try` block: the final state, or the first error. -/
def applySteps {St E : Type} : List (Step St E) → St → Except E St
  | [], s => .ok s
  | f :: rest, s =>
    match f s with
    | .ok s' => applySteps rest s'
    | .error e => .error e

/-- The whole script: connect, run the `try` block, log the error in the
single outer `catch` if one was raised, close the connection in `finally`.
Returns the event trace and the final database state. -/
def runQueries {St E : Type} (steps : List (Step St E)) (s : St) :
    List Event × St :=
  ((Event.opened ::
      ((runSteps steps 0 s).1 ++
        (match (runSteps steps 0 s).2.2 with
          | some _ => [Event.logged]
          | none => []))) ++ [Event.closed],
    (runSteps steps 0 s).2.1)

/-- The single error the embedded script can raise by itself: the JavaScript
`TypeError` thrown by reading `.price` of a `null` result. -/
inductive JsError where
  | typeError
  deriving DecidableEq

/-- A read-only step: the query result is logged, the database state is
unchanged and no error is raised. -/
def readStep {α : Type} (q : Collection → α) : Step Collection JsError :=
  fun c =>
    let _r := q c
    Except.ok c

/-- Step 4 of the script: the price update of "The Great Gatsby". -/
def updateStep : Step Collection JsError :=
  fun c => Except.ok (updateOne "The Great Gatsby" 15.99 c).2

/-- The verification read after the update: `findOne` for the updated title
followed by the unguarded access `updatedBook.price`, which throws a
`TypeError` when `findOne` returned `null`. -/
def verifyStep : Step Collection JsError :=
  fun c =>
    match findOne "The Great Gatsby" c with
    | some _ => Except.ok c
    | none => Except.error JsError.typeError

/-- Step 5 of the script: the deletion of "The Catcher in the Rye". -/
def deleteStep : Step Collection JsError :=
  fun c => Except.ok (deleteOne "The Catcher in the Rye" c).2

/-- An index-management step (`createIndex`, `explain`, `indexes`): it touches
only the collection's index state, which the embedding does not track, and
leaves the documents unchanged. -/
def adminStep : Step Collection JsError :=
  fun c => Except.ok c

/-- The steps of the script's `try` block, in source order.  Index 3 is the
price update, index 4 the verification read, index 5 the delete. -/
def scriptSteps : List (Step Collection JsError) :=
  [ readStep (findByGenre "Fantasy")
  , readStep (findAfterYear 2000)
  , readStep (findByAuthor "J.R.R. Tolkien")
  , updateStep
  , verifyStep
  , deleteStep
  , readStep inStockRecent
  , readStep projectedBooks
  , readStep sortedAsc
  , readStep sortedDesc
  , readStep page1
  , readStep page2
  , readStep avgPriceByGenre
  , readStep topAuthor
  , readStep booksByDecade
  , adminStep
  , adminStep
  , adminStep
  , adminStep
  , adminStep ]

/-! ### Lemmas about `updateOne` and `deleteOne` -/

/-- `updateOne` leaves the collection unchanged, or rewrites exactly one
matching document, changing only its `price` field. -/
theorem updateOne_frame (t : String) (p : ℚ) :
    ∀ c : Collection, (updateOne t p c).2 = c ∨
      ∃ l b r, c = l ++ b :: r ∧ b.title = t ∧
        (updateOne t p c).2 = l ++ { b with price := p } :: r := by
  intro c
  induction c with
  | nil => exact Or.inl rfl
  | cons b rest ih =>
    by_cases hb : b.title = t
    · exact Or.inr ⟨[], b, rest, rfl, hb, by simp [updateOne, hb]⟩
    · rcases ih with h | ⟨l, b', r, hc, hb', hres⟩
      · exact Or.inl (by simp [updateOne, hb, h])
      · exact Or.inr ⟨b :: l, b', r, by simp [hc], hb', by simp [updateOne, hb, hres]⟩

/-- `deleteOne` leaves the collection unchanged, or removes exactly one
matching document. -/
theorem deleteOne_frame (t : String) :
    ∀ c : Collection, (deleteOne t c).2 = c ∨
      ∃ l b r, c = l ++ b :: r ∧ b.title = t ∧ (deleteOne t c).2 = l ++ r := by
  intro c
  induction c with
  | nil => exact Or.inl rfl
  | cons b rest ih =>
    by_cases hb : b.title = t
    · exact Or.inr ⟨[], b, rest, rfl, hb, by simp [deleteOne, hb]⟩
    · rcases ih with h | ⟨l, b', r, hc, hb', hres⟩
      · exact Or.inl (by simp [deleteOne, hb, h])
      · exact Or.inr ⟨b :: l, b', r, by simp [hc], hb', by simp [deleteOne, hb, hres]⟩

/-- The reported modified-count of `updateOne` is 0 or 1. -/
theorem updateOne_modifiedCount (t : String) (p : ℚ) :
    ∀ c : Collection, (updateOne t p c).1.modifiedCount = 0 ∨
      (updateOne t p c).1.modifiedCount = 1 := by
  intro c
  induction c with
  | nil => exact Or.inl rfl
  | cons b rest ih =>
    by_cases hb : b.title = t
    · by_cases hp : b.price = p
      · exact Or.inl (by simp [updateOne, hb, hp])
      · exact Or.inr (by simp [updateOne, hb, hp])
    · simpa [updateOne, hb] using ih

/-- The reported deleted-count of `deleteOne` is 0 or 1. -/
theorem deleteOne_deletedCount (t : String) :
    ∀ c : Collection, (deleteOne t c).1.deletedCount = 0 ∨
      (deleteOne t c).1.deletedCount = 1 := by
  intro c
  induction c with
  | nil => exact Or.inl rfl
  | cons b rest ih =>
    by_cases hb : b.title = t
    · exact Or.inr (by simp [deleteOne, hb])
    · simpa [deleteOne, hb] using ih

/-- `updateOne` preserves the sequence of titles of the collection. -/
theorem updateOne_map_title (t : String) (p : ℚ) :
    ∀ c : Collection, ((updateOne t p c).2).map Book.title = c.map Book.title := by
  intro c
  induction c with
  | nil => rfl
  | cons b rest ih =>
    by_cases hb : b.title = t
    · simp [updateOne, hb]
    · simp [updateOne, hb, ih]

/-- When at most one document matches, the collection returned by `deleteOne`
has no matching document left. -/
theorem deleteOne_no_match_left (t : String) :
    ∀ c : Collection,
      (c.filter (fun b => decide (b.title = t))).length ≤ 1 →
      ∀ b ∈ (deleteOne t c).2, b.title ≠ t := by
  intro c
  induction c with
  | nil => intro _ b hb; cases hb
  | cons b rest ih =>
    intro h b' hb'
    by_cases hb : b.title = t
    · have hnomatch : ∀ a ∈ rest, ¬a.title = t := by
        simpa [List.filter_cons, hb] using h
      have hb'' : b' ∈ rest := by simpa [deleteOne, hb] using hb'
      exact hnomatch b' hb''
    · have hmem : b' ∈ b :: (deleteOne t rest).2 := by
        simpa [deleteOne, hb] using hb'
      rcases List.mem_cons.mp hmem with h1 | h1
      · subst h1; exact hb
      · refine ih ?_ b' h1
        have := h
        simpa [List.filter_cons, hb] using this

/-- `updateOne` gives a matching document the new price whenever a matching
document exists. -/
theorem updateOne_sets_price_aux (t : String) (p : ℚ) :
    ∀ c : Collection, (∃ b ∈ c, b.title = t) →
      ∃ b ∈ (updateOne t p c).2, b.title = t ∧ b.price = p := by
  intro c
  induction c with
  | nil => rintro ⟨b, hb, -⟩; cases hb
  | cons b rest ih =>
    intro h
    by_cases hb : b.title = t
    · refine ⟨{ b with price := p }, ?_, hb, rfl⟩
      simp [updateOne, hb]
    · rcases h with ⟨b', hb', ht'⟩
      rcases List.mem_cons.mp hb' with h1 | h1
      · exact absurd (h1 ▸ ht') hb
      · rcases ih ⟨b', h1, ht'⟩ with ⟨b'', hb'', hprop⟩
        exact ⟨b'', by simp [updateOne, hb, List.mem_cons]; right; exact hb'', hprop⟩

/-! ### Claims C3, C4 and C10: the write steps -/

/-- C3, counterexample: with two documents titled "The Catcher in the Rye" in
the collection, `deleteOne` removes only the first, so a document with the
targeted title still exists after the delete step.  The claim as stated
(for every collection state) is therefore false. -/
theorem deleteOne_leaves_second_copy :
    ¬ (∀ b ∈ (deleteOne "The Catcher in the Rye"
        [⟨1, "The Catcher in the Rye", "J. D. Salinger", "Fiction", 1951, 1, true⟩,
         ⟨2, "The Catcher in the Rye", "J. D. Salinger", "Fiction", 1951, 1, true⟩]).2,
      b.title ≠ "The Catcher in the Rye") := by
  decide

/-- C3 (amended): for every collection state in which at most one document is
titled "The Catcher in the Rye", after the delete step no document with that
title exists, and the reported deleted-count is 0 or 1 (the count bound holds
for every collection state). -/
theorem deleteOne_removes_targeted_title (c : Collection)
    (h : (c.filter (fun b => decide (b.title = "The Catcher in the Rye"))).length ≤ 1) :
    (∀ b ∈ (deleteOne "The Catcher in the Rye" c).2,
        b.title ≠ "The Catcher in the Rye")
    ∧ ((deleteOne "The Catcher in the Rye" c).1.deletedCount = 0 ∨
        (deleteOne "The Catcher in the Rye" c).1.deletedCount = 1) :=
  ⟨deleteOne_no_match_left _ c h, deleteOne_deletedCount _ c⟩

/-- C3, witness: the amended claim holds on a concrete two-document collection
containing one copy of the targeted title. -/
theorem deleteOne_removes_targeted_title_witness :
    (∀ b ∈ (deleteOne "The Catcher in the Rye"
        [⟨1, "The Catcher in the Rye", "J. D. Salinger", "Fiction", 1951, 1, true⟩,
         ⟨2, "The Hobbit", "J.R.R. Tolkien", "Fantasy", 1937, 2, true⟩]).2,
        b.title ≠ "The Catcher in the Rye")
    ∧ ((deleteOne "The Catcher in the Rye"
        [⟨1, "The Catcher in the Rye", "J. D. Salinger", "Fiction", 1951, 1, true⟩,
         ⟨2, "The Hobbit", "J.R.R. Tolkien", "Fantasy", 1937, 2, true⟩]).1.deletedCount = 0 ∨
        (deleteOne "The Catcher in the Rye"
        [⟨1, "The Catcher in the Rye", "J. D. Salinger", "Fiction", 1951, 1, true⟩,
         ⟨2, "The Hobbit", "J.R.R. Tolkien", "Fantasy", 1937, 2, true⟩]).1.deletedCount = 1) :=
  deleteOne_removes_targeted_title _ (by decide)

/-- C4, counterexample: on the empty collection the update step matches
nothing, so afterwards no document titled "The Great Gatsby" has price 15.99.
The claim as stated (for every collection state) is therefore false. -/
theorem updateOne_empty_no_gatsby :
    ¬ ∃ b ∈ (updateOne "The Great Gatsby" 15.99 ([] : Collection)).2,
      b.title = "The Great Gatsby" ∧ b.price = 15.99 := by
  simp [updateOne]

/-- C4 (amended): for every collection state containing a document titled
"The Great Gatsby", after the price update step some document with that title
has price 15.99, and the reported modified-count is 0 or 1 (the count bound
holds for every collection state). -/
theorem updateOne_sets_targeted_price (c : Collection)
    (h : ∃ b ∈ c, b.title = "The Great Gatsby") :
    (∃ b ∈ (updateOne "The Great Gatsby" 15.99 c).2,
        b.title = "The Great Gatsby" ∧ b.price = 15.99)
    ∧ ((updateOne "The Great Gatsby" 15.99 c).1.modifiedCount = 0 ∨
        (updateOne "The Great Gatsby" 15.99 c).1.modifiedCount = 1) :=
  ⟨updateOne_sets_price_aux _ _ c h, updateOne_modifiedCount _ _ c⟩

/-- C4, witness: the amended claim holds on a concrete one-document collection
containing the targeted title. -/
theorem updateOne_sets_targeted_price_witness :
    (∃ b ∈ (updateOne "The Great Gatsby" 15.99
        [⟨1, "The Great Gatsby", "F. Scott Fitzgerald", "Fiction", 1925, 10, true⟩]).2,
        b.title = "The Great Gatsby" ∧ b.price = 15.99)
    ∧ ((updateOne "The Great Gatsby" 15.99
        [⟨1, "The Great Gatsby", "F. Scott Fitzgerald", "Fiction", 1925, 10, true⟩]).1.modifiedCount = 0 ∨
        (updateOne "The Great Gatsby" 15.99
        [⟨1, "The Great Gatsby", "F. Scott Fitzgerald", "Fiction", 1925, 10, true⟩]).1.modifiedCount = 1) :=
  updateOne_sets_targeted_price _ ⟨_, List.mem_cons_self _ _, rfl⟩

/-- C10: for every collection state, the update step either leaves the
collection unchanged or rewrites exactly one document — one whose title
matches the filter — changing only its `price` field, and the delete step
either leaves the collection unchanged or removes exactly one matching
document; in both cases every other document is untouched. -/
theorem update_delete_frame (c : Collection) :
    ((updateOne "The Great Gatsby" 15.99 c).2 = c ∨
      ∃ l b r, c = l ++ b :: r ∧ b.title = "The Great Gatsby" ∧
        (updateOne "The Great Gatsby" 15.99 c).2 = l ++ { b with price := 15.99 } :: r)
    ∧ ((deleteOne "The Catcher in the Rye" c).2 = c ∨
      ∃ l b r, c = l ++ b :: r ∧ b.title = "The Catcher in the Rye" ∧
        (deleteOne "The Catcher in the Rye" c).2 = l ++ r) :=
  ⟨updateOne_frame _ _ c, deleteOne_frame _ c⟩

/-! ### Lemmas about the run interpreter -/

/-- Every event the `try` block emits is a step-execution event. -/
theorem runSteps_exec_shape {St E : Type} (steps : List (Step St E)) :
    ∀ (i : Nat) (s : St), ∀ ev ∈ (runSteps steps i s).1, ∃ j, ev = Event.exec j := by
  induction steps with
  | nil => intro i s ev h; cases h
  | cons f rest ih =>
    intro i s ev h
    cases hf : f s with
    | ok s' =>
      simp only [runSteps, hf] at h
      rcases List.mem_cons.mp h with h1 | h1
      · exact ⟨i, h1⟩
      · exact ih (i + 1) s' ev h1
    | error e =>
      simp only [runSteps, hf] at h
      rcases List.mem_singleton.mp h with h1
      exact ⟨i, h1⟩

/-- The error component of the `try` block's run is the error of its pure
result. -/
theorem runSteps_error_eq {St E : Type} (steps : List (Step St E)) :
    ∀ (i : Nat) (s : St), (runSteps steps i s).2.2 =
      (match applySteps steps s with
        | .ok _ => none
        | .error e => some e) := by
  induction steps with
  | nil => intro i s; rfl
  | cons f rest ih =>
    intro i s
    cases hf : f s with
    | ok s' => simp only [runSteps, applySteps, hf]; exact ih (i + 1) s'
    | error e => simp only [runSteps, applySteps, hf]

/-- When the steps split as a successful prefix followed by a failing step,
the `try` block executes exactly the prefix and the failing step, stops in the
state the prefix produced, and returns the error. -/
theorem runSteps_append_error {St E : Type} (f : Step St E)
    (post : List (Step St E)) (e : E) (pre : List (Step St E)) :
    ∀ (i : Nat) (s s' : St), applySteps pre s = .ok s' → f s' = .error e →
      runSteps (pre ++ f :: post) i s =
        ((List.range (pre.length + 1)).map (fun j => Event.exec (i + j)),
          s', some e) := by
  induction pre with
  | nil =>
    intro i s s' hpre hf
    have hs : s = s' := by simpa [applySteps] using hpre
    subst hs
    simp [runSteps, hf, List.range_succ]
  | cons g pre' ih =>
    intro i s s' hpre hf
    cases hg : g s with
    | error e' => simp [applySteps, hg] at hpre
    | ok s₁ =>
      have hpre' : applySteps pre' s₁ = .ok s' := by
        simpa [applySteps, hg] using hpre
      have hrec := ih (i + 1) s₁ s' hpre' hf
      have hlist : (List.range (pre'.length + 1 + 1)).map (fun j => Event.exec (i + j)) =
          Event.exec i ::
            (List.range (pre'.length + 1)).map (fun j => Event.exec ((i + 1) + j)) := by
        rw [List.range_succ_eq_map, List.map_cons, List.map_map]
        refine congrArg₂ List.cons (by simp) (List.map_congr_left ?_)
        intro j hj
        simp only [Function.comp_apply]
        congr 1
        omega
      simp only [List.cons_append, runSteps, List.append_eq, hg, hrec,
        List.length_cons, hlist]

/-- If the `exec` event of step `i + k` was emitted, the first `k` steps all
succeeded. -/
theorem exec_mem_prefix_ok {St E : Type} (steps : List (Step St E)) :
    ∀ (i : Nat) (s : St) (k : Nat),
      Event.exec (i + k) ∈ (runSteps steps i s).1 →
      ∃ s', applySteps (steps.take k) s = .ok s' := by
  induction steps with
  | nil => intro i s k h; cases h
  | cons f rest ih =>
    intro i s k h
    cases k with
    | zero => exact ⟨s, rfl⟩
    | succ k' =>
      cases hf : f s with
      | error e =>
        simp only [runSteps, hf, List.mem_singleton, Event.exec.injEq] at h
        omega
      | ok s₁ =>
        simp only [runSteps, hf] at h
        rcases List.mem_cons.mp h with h1 | h1
        · rw [Event.exec.injEq] at h1; omega
        · have h2 : Event.exec ((i + 1) + k') ∈ (runSteps rest (i + 1) s₁).1 := by
            have : i + (k' + 1) = (i + 1) + k' := by omega
            rwa [this] at h1
          rcases ih (i + 1) s₁ k' h2 with ⟨s', hs'⟩
          exact ⟨s', by simpa [List.take_cons, applySteps, hf] using hs'⟩

/-- `findOne` returns `null` exactly when no document has the title. -/
theorem findOne_eq_none_iff (t : String) :
    ∀ c : Collection, findOne t c = none ↔ ∀ b ∈ c, b.title ≠ t := by
  intro c
  induction c with
  | nil => simp [findOne]
  | cons b rest ih =>
    by_cases hb : b.title = t
    · simp [findOne, hb]
    · simp [findOne, hb, ih]

/-- A document returned by `findOne` is in the collection and has the title. -/
theorem findOne_some_mem (t : String) :
    ∀ c : Collection, ∀ b, findOne t c = some b → b ∈ c ∧ b.title = t := by
  intro c
  induction c with
  | nil => intro b h; cases h
  | cons b' rest ih =>
    intro b h
    by_cases hb : b'.title = t
    · have : b' = b := by simpa [findOne, hb] using h
      subst this
      exact ⟨List.mem_cons_self _ _, hb⟩
    · have h' : findOne t rest = some b := by simpa [findOne, hb] using h
      rcases ih b h' with ⟨h1, h2⟩
      exact ⟨List.mem_cons_of_mem _ h1, h2⟩

/-! ### Claims C7, C8 and C9: control flow and error handling -/

/-- C7: for every run of `runQueries` — every choice of steps, state and step
outcomes — the connection is closed exactly once, as the final action before
the procedure returns; the single outer catch logs the error exactly once
when some step raises and never logs otherwise. -/
theorem runQueries_scoped_connection {St E : Type} (steps : List (Step St E)) (s : St) :
    ((runQueries steps s).1.count Event.closed = 1)
    ∧ ((runQueries steps s).1.getLast? = some Event.closed)
    ∧ ((runQueries steps s).1.count Event.opened = 1)
    ∧ ((runQueries steps s).1.count Event.logged ≤ 1)
    ∧ (∀ e : E, applySteps steps s = .error e →
        (runQueries steps s).1.count Event.logged = 1)
    ∧ (∀ s' : St, applySteps steps s = .ok s' →
        Event.logged ∉ (runQueries steps s).1) := by
  have hshape := runSteps_exec_shape steps 0 s
  have hclosed : Event.closed ∉ (runSteps steps 0 s).1 := by
    intro hmem
    rcases hshape _ hmem with ⟨j, hj⟩
    cases hj
  have hopened : Event.opened ∉ (runSteps steps 0 s).1 := by
    intro hmem
    rcases hshape _ hmem with ⟨j, hj⟩
    cases hj
  have hlogged : Event.logged ∉ (runSteps steps 0 s).1 := by
    intro hmem
    rcases hshape _ hmem with ⟨j, hj⟩
    cases hj
  have herr := runSteps_error_eq steps 0 s
  refine ⟨?_, ?_, ?_, ?_, ?_, ?_⟩
  · cases happly : applySteps steps s with
    | ok s' =>
      rw [happly] at herr
      simp [runQueries, herr, List.count_append, List.count_cons,
        List.count_eq_zero.mpr hclosed]
    | error e =>
      rw [happly] at herr
      simp [runQueries, herr, List.count_append, List.count_cons,
        List.count_eq_zero.mpr hclosed]
  · have hform : (runQueries steps s).1 =
        (Event.opened ::
          ((runSteps steps 0 s).1 ++
            (match (runSteps steps 0 s).2.2 with
              | some _ => [Event.logged]
              | none => []))) ++ [Event.closed] := rfl
    rw [hform, List.getLast?_concat]
  · cases happly : applySteps steps s with
    | ok s' =>
      rw [happly] at herr
      simp [runQueries, herr, List.count_append, List.count_cons,
        List.count_eq_zero.mpr hopened]
    | error e =>
      rw [happly] at herr
      simp [runQueries, herr, List.count_append, List.count_cons,
        List.count_eq_zero.mpr hopened]
  · cases happly : applySteps steps s with
    | ok s' =>
      rw [happly] at herr
      simp [runQueries, herr, List.count_append, List.count_cons,
        List.count_eq_zero.mpr hlogged]
    | error e =>
      rw [happly] at herr
      simp [runQueries, herr, List.count_append, List.count_cons,
        List.count_eq_zero.mpr hlogged]
  · intro e happly
    rw [happly] at herr
    simp [runQueries, herr, List.count_append, List.count_cons,
      List.count_eq_zero.mpr hlogged]
  · intro s' happly
    rw [happly] at herr
    simp [runQueries, herr, List.mem_append, List.mem_cons]
    exact hlogged

/-- C8: when the steps split into a successful prefix and a failing step, the
final database state of the run is exactly the state the prefix produced —
completed writes are not undone — and no step beyond the failing one is
executed. -/
theorem runQueries_failure_keeps_prefix_state {St E : Type}
    (pre : List (Step St E)) (f : Step St E) (post : List (Step St E))
    (s s' : St) (e : E)
    (hpre : applySteps pre s = Except.ok s')
    (hf : f s' = Except.error e) :
    (runQueries (pre ++ f :: post) s).2 = s'
    ∧ ∀ j, Event.exec j ∈ (runQueries (pre ++ f :: post) s).1 → j ≤ pre.length := by
  have h := runSteps_append_error f post e pre 0 s s' hpre hf
  constructor
  · simp [runQueries, h]
  · intro j hj
    simp only [runQueries, h] at hj
    rcases List.mem_append.mp hj with h1 | h1
    · rcases List.mem_cons.mp h1 with h2 | h2
      · exact Event.noConfusion h2
      · rcases List.mem_append.mp h2 with h3 | h3
        · rcases List.mem_map.mp h3 with ⟨a, ha, hae⟩
          injection hae with h4
          have h5 := List.mem_range.mp ha
          omega
        · exact Event.noConfusion (List.mem_singleton.mp h3)
    · exact Event.noConfusion (List.mem_singleton.mp h1)

/-- C7, witness: the guarantees hold on a concrete failing run — the script's
own steps on the empty collection, where the verification read fails. -/
theorem runQueries_scoped_connection_witness :
    ((runQueries scriptSteps ([] : Collection)).1.count Event.closed = 1)
    ∧ ((runQueries scriptSteps ([] : Collection)).1.getLast? = some Event.closed)
    ∧ ((runQueries scriptSteps ([] : Collection)).1.count Event.logged = 1) :=
  ⟨(runQueries_scoped_connection scriptSteps []).1,
    (runQueries_scoped_connection scriptSteps []).2.1,
    (runQueries_scoped_connection scriptSteps []).2.2.2.2.1 JsError.typeError rfl⟩

/-- C8, witness: with the update step completed and the verification step
failing on the empty collection, the final state is the post-update state and
no step after the failing one runs. -/
theorem runQueries_failure_keeps_prefix_state_witness :
    (runQueries ([updateStep] ++ verifyStep :: [deleteStep]) ([] : Collection)).2 = []
    ∧ ∀ j, Event.exec j ∈
        (runQueries ([updateStep] ++ verifyStep :: [deleteStep]) ([] : Collection)).1 →
      j ≤ [updateStep].length :=
  runQueries_failure_keeps_prefix_state [updateStep] verifyStep [deleteStep]
    [] [] JsError.typeError rfl rfl

/-- C9: for every collection state with no document titled "The Great Gatsby",
the verification read after the update step returns `null`, the unguarded
`.price` access raises the `TypeError` which aborts the run — no step after
the verification step (index 4), in particular not the delete step (index 5),
is executed; and conversely, whenever the delete step is executed the initial
collection contained a document with that title. -/
theorem verify_null_aborts :
    (∀ c : Collection, (∀ b ∈ c, b.title ≠ "The Great Gatsby") →
      findOne "The Great Gatsby" (updateOne "The Great Gatsby" 15.99 c).2 = none
      ∧ applySteps scriptSteps c = .error JsError.typeError
      ∧ (∀ j, Event.exec j ∈ (runQueries scriptSteps c).1 → j ≤ 4)
      ∧ Event.exec 5 ∉ (runQueries scriptSteps c).1)
    ∧ (∀ c : Collection, Event.exec 5 ∈ (runQueries scriptSteps c).1 →
      ∃ b ∈ c, b.title = "The Great Gatsby") := by
  constructor
  · intro c h
    have hnone : findOne "The Great Gatsby" (updateOne "The Great Gatsby" 15.99 c).2 = none := by
      rw [findOne_eq_none_iff]
      intro b hb
      have hmem : b.title ∈ ((updateOne "The Great Gatsby" 15.99 c).2).map Book.title :=
        List.mem_map_of_mem _ hb
      rw [updateOne_map_title] at hmem
      rcases List.mem_map.mp hmem with ⟨b₀, hb₀, htit⟩
      exact htit ▸ h b₀ hb₀
    have hpre : applySteps
        [ readStep (findByGenre "Fantasy")
        , readStep (findAfterYear 2000)
        , readStep (findByAuthor "J.R.R. Tolkien")
        , updateStep ] c = .ok ((updateOne "The Great Gatsby" 15.99 c).2) := by
      simp [applySteps, readStep, updateStep]
    have hf : verifyStep ((updateOne "The Great Gatsby" 15.99 c).2) =
        .error JsError.typeError := by
      simp [verifyStep, hnone]
    have hrun := runSteps_append_error verifyStep
      [ deleteStep
      , readStep inStockRecent
      , readStep projectedBooks
      , readStep sortedAsc
      , readStep sortedDesc
      , readStep page1
      , readStep page2
      , readStep avgPriceByGenre
      , readStep topAuthor
      , readStep booksByDecade
      , adminStep, adminStep, adminStep, adminStep, adminStep ]
      JsError.typeError
      [ readStep (findByGenre "Fantasy")
      , readStep (findAfterYear 2000)
      , readStep (findByAuthor "J.R.R. Tolkien")
      , updateStep ]
      0 c ((updateOne "The Great Gatsby" 15.99 c).2) hpre hf
    have hs : runSteps scriptSteps 0 c =
        ((List.range 5).map (fun j => Event.exec (0 + j)),
          (updateOne "The Great Gatsby" 15.99 c).2, some JsError.typeError) := hrun
    have herr := runSteps_error_eq scriptSteps 0 c
    rw [hs] at herr
    have happly : applySteps scriptSteps c = .error JsError.typeError := by
      cases happly' : applySteps scriptSteps c with
      | ok s' => rw [happly'] at herr; cases herr
      | error e => cases e; rfl
    have hbound : ∀ j, Event.exec j ∈ (runQueries scriptSteps c).1 → j ≤ 4 := by
      intro j hj
      simp only [runQueries, hs] at hj
      rcases List.mem_append.mp hj with h1 | h1
      · rcases List.mem_cons.mp h1 with h2 | h2
        · exact Event.noConfusion h2
        · rcases List.mem_append.mp h2 with h3 | h3
          · rcases List.mem_map.mp h3 with ⟨a, ha, hae⟩
            injection hae with h4
            have h5 := List.mem_range.mp ha
            omega
          · exact Event.noConfusion (List.mem_singleton.mp h3)
      · exact Event.noConfusion (List.mem_singleton.mp h1)
    exact ⟨hnone, happly, hbound, fun hmem => by have := hbound 5 hmem; omega⟩
  · intro c hmem
    have hbody : Event.exec (0 + 5) ∈ (runSteps scriptSteps 0 c).1 := by
      simp only [runQueries] at hmem
      rcases List.mem_append.mp hmem with h1 | h1
      · rcases List.mem_cons.mp h1 with h2 | h2
        · exact Event.noConfusion h2
        · rcases List.mem_append.mp h2 with h3 | h3
          · simpa using h3
          · cases hc : (runSteps scriptSteps 0 c).2.2 with
            | some e => rw [hc] at h3
                        exact absurd (List.mem_singleton.mp h3) (by simp)
            | none => rw [hc] at h3; cases h3
      · exact absurd (List.mem_singleton.mp h1) (by simp)
    rcases exec_mem_prefix_ok scriptSteps 0 c 5 hbody with ⟨s', htake⟩
    have htake5 : applySteps
        [ readStep (findByGenre "Fantasy")
        , readStep (findAfterYear 2000)
        , readStep (findByAuthor "J.R.R. Tolkien")
        , updateStep
        , verifyStep ] c = .ok s' := htake
    cases hfind : findOne "The Great Gatsby" ((updateOne "The Great Gatsby" 15.99 c).2) with
    | none =>
      simp [applySteps, readStep, updateStep, verifyStep, hfind] at htake5
    | some b =>
      rcases findOne_some_mem "The Great Gatsby" _ b hfind with ⟨hbmem, hbtitle⟩
      have hmem2 : b.title ∈ ((updateOne "The Great Gatsby" 15.99 c).2).map Book.title :=
        List.mem_map_of_mem _ hbmem
      rw [updateOne_map_title] at hmem2
      rcases List.mem_map.mp hmem2 with ⟨b₀, hb₀, htit⟩
      exact ⟨b₀, hb₀, htit.trans hbtitle⟩

/-- C9, witness: on a one-document collection without the targeted title the
delete step is never executed, and on a one-document collection with it the
delete step's precondition — a matching document in the initial state — holds. -/
theorem verify_null_aborts_witness :
    Event.exec 5 ∉ (runQueries scriptSteps
      [⟨1, "The Hobbit", "J.R.R. Tolkien", "Fantasy", 1937, 2, true⟩]).1
    ∧ ∃ b ∈ ([⟨2, "The Great Gatsby", "F. Scott Fitzgerald", "Fiction", 1925, 10,
        true⟩] : Collection), b.title = "The Great Gatsby" :=
  ⟨(verify_null_aborts.1 _ (by decide)).2.2.2,
    verify_null_aborts.2 _ (by decide)⟩

/-! ### Claim C2: pagination -/

/-- Chunks of size 5 taken at skip offsets `0, 5, …` reassemble the list they
were cut from, once the offsets cover its length. -/
theorem flatten_chunks :
    ∀ (n : Nat) (l : List Book), l.length ≤ 5 * n →
      ((List.range n).map (fun i => (l.drop (5 * i)).take 5)).flatten = l := by
  intro n
  induction n with
  | zero =>
    intro l hl
    have : l = [] := List.length_eq_zero.mp (Nat.le_zero.mp (by simpa using hl))
    simp [this]
  | succ n ih =>
    intro l hl
    have hhead : (List.range (n + 1)).map (fun i => (l.drop (5 * i)).take 5) =
        (l.take 5) :: (List.range n).map (fun i => ((l.drop 5).drop (5 * i)).take 5) := by
      rw [List.range_succ_eq_map, List.map_cons, List.map_map]
      refine congrArg₂ List.cons (by simp) (List.map_congr_left ?_)
      intro i hi
      simp only [Function.comp_apply, List.drop_drop]
      congr 2
      omega
    rw [hhead, List.flatten_cons]
    rw [ih (l.drop 5) (by simp [Nat.mul_succ] at hl ⊢; omega)]
    exact List.take_append_drop 5 l

/-- C2: for every collection state — MongoDB keeps the `_id` values of a
collection's documents distinct — the two paginated reads visit disjoint
documents, and for page size 5 the pages taken over all skip offsets
partition the title-sorted collection: their concatenation is exactly the
sorted collection (each document exactly once) and the pages are pairwise
disjoint.  The returned lists are the projections of these document pages. -/
theorem pagination_partition (c : Collection) (h : (c.map Book._id).Nodup) :
    List.Disjoint (pageDocs c 0) (pageDocs c 5)
    ∧ (∀ n, c.length ≤ 5 * n →
        (pages c n).flatten = sortByTitle c ∧ (pages c n).Pairwise List.Disjoint)
    ∧ page1 c = (pageDocs c 0).map projTitleAuthor
    ∧ page2 c = (pageDocs c 5).map projTitleAuthor := by
  have hnodc : c.Nodup := h.of_map
  have hnods : (sortByTitle c).Nodup :=
    ((List.perm_insertionSort titleLe c).nodup_iff).mpr hnodc
  have hflat : ∀ n, c.length ≤ 5 * n → (pages c n).flatten = sortByTitle c := by
    intro n hn
    have hlen : (sortByTitle c).length ≤ 5 * n := by
      simpa [sortByTitle] using hn
    exact flatten_chunks n (sortByTitle c) hlen
  refine ⟨?_, fun n hn => ⟨hflat n hn, ?_⟩, rfl, rfl⟩
  · have hsplit : (sortByTitle c).take 5 ++ (sortByTitle c).drop 5 = sortByTitle c :=
      List.take_append_drop 5 (sortByTitle c)
    have hdisj : List.Disjoint ((sortByTitle c).take 5) ((sortByTitle c).drop 5) :=
      List.disjoint_of_nodup_append (by rwa [hsplit])
    intro a ha hb
    have ha' : a ∈ (sortByTitle c).take 5 := by
      simpa [pageDocs] using ha
    have hb' : a ∈ (sortByTitle c).drop 5 :=
      List.take_subset _ _ (by simpa [pageDocs] using hb)
    exact hdisj ha' hb'
  · have : ((pages c n).flatten).Nodup := by
      rw [hflat n hn]; exact hnods
    exact (List.nodup_flatten.mp this).2

/-- C2, witness: the partition properties hold on a concrete three-document
collection with distinct `_id` values, using one page. -/
theorem pagination_partition_witness :
    List.Disjoint
      (pageDocs [⟨1, "A", "a", "g", 1990, 1, true⟩,
                 ⟨2, "B", "b", "g", 1991, 2, true⟩,
                 ⟨3, "C", "c", "g", 1992, 3, false⟩] 0)
      (pageDocs [⟨1, "A", "a", "g", 1990, 1, true⟩,
                 ⟨2, "B", "b", "g", 1991, 2, true⟩,
                 ⟨3, "C", "c", "g", 1992, 3, false⟩] 5)
    ∧ (pages [⟨1, "A", "a", "g", 1990, 1, true⟩,
              ⟨2, "B", "b", "g", 1991, 2, true⟩,
              ⟨3, "C", "c", "g", 1992, 3, false⟩] 1).flatten =
        sortByTitle [⟨1, "A", "a", "g", 1990, 1, true⟩,
                     ⟨2, "B", "b", "g", 1991, 2, true⟩,
                     ⟨3, "C", "c", "g", 1992, 3, false⟩] :=
  ⟨(pagination_partition _ (by decide)).1,
    ((pagination_partition _ (by decide)).2.1 1 (by decide)).1⟩

/-! ### Lemmas about the `$group` accumulator fold -/

/-- The accumulator value the group of key `k` currently holds, if the group
is open. -/
def findVal {κ β : Type} [DecidableEq κ] (k : κ) : List (κ × β) → Option β
  | [] => none
  | e :: rest => if e.1 = k then some e.2 else findVal k rest

/-- A key has no open group exactly when it is not among the group keys. -/
theorem findVal_eq_none_iff {κ β : Type} [DecidableEq κ] (k : κ) :
    ∀ l : List (κ × β), findVal k l = none ↔ k ∉ l.map Prod.fst := by
  intro l
  induction l with
  | nil => simp [findVal]
  | cons e rest ih =>
    by_cases he : e.1 = k
    · simp [findVal, he]
    · simp [findVal, he, ih, Ne.symm he]

/-- Updating the group of key `k` maps its accumulator value. -/
theorem findVal_updateGroup_self {κ β : Type} [DecidableEq κ] (k : κ) (u : β → β) :
    ∀ l : List (κ × β), findVal k (updateGroup k u l) = (findVal k l).map u := by
  intro l
  induction l with
  | nil => rfl
  | cons e rest ih =>
    by_cases he : e.1 = k
    · simp [updateGroup, findVal, he]
    · simp [updateGroup, findVal, he, ih]

/-- Updating the group of another key leaves a key's accumulator unchanged. -/
theorem findVal_updateGroup_ne {κ β : Type} [DecidableEq κ] {k k' : κ}
    (hne : k' ≠ k) (u : β → β) :
    ∀ l : List (κ × β), findVal k (updateGroup k' u l) = findVal k l := by
  intro l
  induction l with
  | nil => rfl
  | cons e rest ih =>
    by_cases he : e.1 = k'
    · simp [updateGroup, findVal, he, hne]
    · simp only [updateGroup, findVal, if_neg he]
      by_cases hek : e.1 = k
      · simp [findVal, hek]
      · simp [findVal, hek, ih]

/-- Opening a group at the end of the list: an already open group is
unaffected; the new key's group holds the initial value. -/
theorem findVal_append_single {κ β : Type} [DecidableEq κ] (k k' : κ) (v : β) :
    ∀ l : List (κ × β), findVal k (l ++ [(k', v)]) =
      (match findVal k l with
        | some w => some w
        | none => if k' = k then some v else none) := by
  intro l
  induction l with
  | nil => simp [findVal]
  | cons e rest ih =>
    by_cases he : e.1 = k
    · simp [findVal, he]
    · simp [findVal, he, ih]

/-- Feeding a document of another key leaves a group's accumulator unchanged. -/
theorem findVal_groupStep_ne {κ β : Type} [DecidableEq κ] {keyOf : Book → κ}
    (init : Book → β) (upd : β → Book → β) {k : κ} {b : Book}
    (hne : keyOf b ≠ k) (acc : List (κ × β)) :
    findVal k (groupStep keyOf init upd acc b) = findVal k acc := by
  unfold groupStep
  by_cases hmem : keyOf b ∈ acc.map Prod.fst
  · rw [if_pos hmem]
    exact findVal_updateGroup_ne hne _ acc
  · rw [if_neg hmem, findVal_append_single]
    cases hfv : findVal k acc with
    | some w => rfl
    | none => simp [hne]

/-- Feeding a document of key `k` into the fold updates the open group of
`k`. -/
theorem findVal_groupStep_eq_some {κ β : Type} [DecidableEq κ] {keyOf : Book → κ}
    (init : Book → β) (upd : β → Book → β) {k : κ} {b : Book} {v : β}
    (hkb : keyOf b = k) (acc : List (κ × β)) (hfv : findVal k acc = some v) :
    findVal k (groupStep keyOf init upd acc b) = some (upd v b) := by
  unfold groupStep
  have hmem : keyOf b ∈ acc.map Prod.fst := by
    rw [hkb]
    by_contra hno
    rw [← findVal_eq_none_iff] at hno
    rw [hno] at hfv
    cases hfv
  rw [if_pos hmem, hkb, findVal_updateGroup_self, hfv]
  rfl

/-- Feeding a document of key `k` when no group of `k` is open opens one with
the initial accumulator value. -/
theorem findVal_groupStep_eq_none {κ β : Type} [DecidableEq κ] {keyOf : Book → κ}
    (init : Book → β) (upd : β → Book → β) {k : κ} {b : Book}
    (hkb : keyOf b = k) (acc : List (κ × β)) (hfv : findVal k acc = none) :
    findVal k (groupStep keyOf init upd acc b) = some (init b) := by
  unfold groupStep
  have hmem : keyOf b ∉ acc.map Prod.fst := by
    rw [hkb]
    exact (findVal_eq_none_iff k acc).mp hfv
  rw [if_neg hmem, findVal_append_single, hfv, hkb]
  simp

/-- Folding documents into an open group accumulates exactly the matching
documents. -/
theorem foldl_groupStep_some {κ β : Type} [DecidableEq κ] (keyOf : Book → κ)
    (init : Book → β) (upd : β → Book → β) (k : κ) :
    ∀ (c : Collection) (acc : List (κ × β)) (v : β), findVal k acc = some v →
      findVal k (c.foldl (groupStep keyOf init upd) acc) =
        some ((c.filter (fun b => decide (keyOf b = k))).foldl upd v) := by
  intro c
  induction c with
  | nil => intro acc v hfv; simpa [findVal] using hfv
  | cons b c' ih =>
    intro acc v hfv
    by_cases hkb : keyOf b = k
    · have hstep := findVal_groupStep_eq_some init upd hkb acc hfv
      have := ih (groupStep keyOf init upd acc b) (upd v b) hstep
      simpa [List.filter_cons, hkb] using this
    · have hstep := findVal_groupStep_ne init upd hkb acc
      have := ih (groupStep keyOf init upd acc b) v (hstep.trans hfv)
      simpa [List.filter_cons, hkb] using this

/-- Folding documents with no group of `k` open produces the group of `k`
from exactly the matching documents: the first one initializes it, the rest
are accumulated in order. -/
theorem foldl_groupStep_none {κ β : Type} [DecidableEq κ] (keyOf : Book → κ)
    (init : Book → β) (upd : β → Book → β) (k : κ) :
    ∀ (c : Collection) (acc : List (κ × β)), findVal k acc = none →
      findVal k (c.foldl (groupStep keyOf init upd) acc) =
        (match c.filter (fun b => decide (keyOf b = k)) with
          | [] => none
          | m :: ms => some (ms.foldl upd (init m))) := by
  intro c
  induction c with
  | nil => intro acc hfv; simpa [findVal] using hfv
  | cons b c' ih =>
    intro acc hfv
    by_cases hkb : keyOf b = k
    · have hstep := findVal_groupStep_eq_none init upd hkb acc hfv
      have := foldl_groupStep_some keyOf init upd k c'
        (groupStep keyOf init upd acc b) (init b) hstep
      simpa [List.filter_cons, hkb] using this
    · have hstep := findVal_groupStep_ne init upd hkb acc
      have := ih (groupStep keyOf init upd acc b) (hstep.trans hfv)
      simpa [List.filter_cons, hkb] using this

/-- `updateGroup` does not change the group keys. -/
theorem updateGroup_map_fst {κ β : Type} [DecidableEq κ] (k : κ) (u : β → β) :
    ∀ l : List (κ × β), (updateGroup k u l).map Prod.fst = l.map Prod.fst := by
  intro l
  induction l with
  | nil => rfl
  | cons e rest ih =>
    by_cases he : e.1 = k
    · simp [updateGroup, he]
    · simp [updateGroup, he, ih]

/-- The fold keeps the group keys distinct. -/
theorem foldl_groupStep_nodup_keys {κ β : Type} [DecidableEq κ] (keyOf : Book → κ)
    (init : Book → β) (upd : β → Book → β) :
    ∀ (c : Collection) (acc : List (κ × β)), (acc.map Prod.fst).Nodup →
      (((c.foldl (groupStep keyOf init upd) acc)).map Prod.fst).Nodup := by
  intro c
  induction c with
  | nil => intro acc h; exact h
  | cons b c' ih =>
    intro acc h
    refine ih (groupStep keyOf init upd acc b) ?_
    unfold groupStep
    by_cases hmem : keyOf b ∈ acc.map Prod.fst
    · rw [if_pos hmem, updateGroup_map_fst]
      exact h
    · rw [if_neg hmem, List.map_append]
      rw [List.nodup_append]
      refine ⟨h, by simp, ?_⟩
      intro a ha hb
      simp only [List.map_cons, List.map_nil, List.mem_singleton] at hb
      exact hmem (hb ▸ ha)

/-- With distinct keys, every entry's value is the accumulator of its key. -/
theorem findVal_of_mem {κ β : Type} [DecidableEq κ] :
    ∀ l : List (κ × β), (l.map Prod.fst).Nodup →
      ∀ e ∈ l, findVal e.1 l = some e.2 := by
  intro l
  induction l with
  | nil => intro _ e he; cases he
  | cons e₀ rest ih =>
    intro h e he
    rcases List.mem_cons.mp he with he1 | he1
    · subst he1
      simp [findVal]
    · have hne : e₀.1 ≠ e.1 := by
        intro heq
        have : e.1 ∈ rest.map Prod.fst := List.mem_map_of_mem Prod.fst he1
        rw [List.map_cons, List.nodup_cons] at h
        exact h.1 (heq ▸ this)
      have hrest : (rest.map Prod.fst).Nodup := by
        rw [List.map_cons, List.nodup_cons] at h
        exact h.2
      simp [findVal, hne, ih hrest e he1]

/-- Every group produced by a `$group` fold comes from the nonempty list of
the documents with its key: the first matching document initializes the
accumulator and the remaining ones are folded in collection order. -/
theorem groupFold_mem {κ β : Type} [DecidableEq κ] (keyOf : Book → κ)
    (init : Book → β) (upd : β → Book → β) (c : Collection) (k : κ) (v : β)
    (hmem : (k, v) ∈ groupFold keyOf init upd c) :
    ∃ m ms, c.filter (fun b => decide (keyOf b = k)) = m :: ms ∧
      v = ms.foldl upd (init m) := by
  have hnodup := foldl_groupStep_nodup_keys keyOf init upd c [] (by simp)
  have hmem' : (k, v) ∈ c.foldl (groupStep keyOf init upd) [] := hmem
  have hfv : findVal k (c.foldl (groupStep keyOf init upd) []) = some v :=
    findVal_of_mem _ hnodup (k, v) hmem'
  have hnone := foldl_groupStep_none keyOf init upd k c [] rfl
  rw [hfv] at hnone
  cases hfil : c.filter (fun b => decide (keyOf b = k)) with
  | nil => rw [hfil] at hnone; cases hnone
  | cons m ms =>
    rw [hfil] at hnone
    exact ⟨m, ms, rfl, by injection hnone.symm with hv; exact hv.symm⟩

/-- The `$avg`/`$sum` accumulator pair folds to the sum of the prices and the
count of the documents. -/
theorem foldl_avg (ms : List Book) :
    ∀ (s : ℚ) (n : Nat),
      List.foldl (fun v b => (v.1 + b.price, v.2 + 1)) ((s, n) : ℚ × Nat) ms =
        (s + (ms.map Book.price).sum, n + ms.length) := by
  induction ms with
  | nil => intro s n; simp
  | cons b ms' ih =>
    intro s n
    rw [List.foldl_cons, ih]
    refine Prod.ext ?_ ?_
    · simp [add_assoc]
    · simp only [List.length_cons]
      omega

/-- The `$sum`/`$push` accumulator pair folds to the count of the documents
and their titles appended in order. -/
theorem foldl_push (ms : List Book) :
    ∀ (n : Nat) (ts : List String),
      List.foldl (fun v b => (v.1 + 1, v.2 ++ [b.title])) ((n, ts) : Nat × List String) ms =
        (n + ms.length, ts ++ ms.map Book.title) := by
  induction ms with
  | nil => intro n ts; simp
  | cons b ms' ih =>
    intro n ts
    rw [List.foldl_cons, ih]
    refine Prod.ext ?_ ?_
    · simp only [List.length_cons]
      omega
    · simp

/-- For non-negative years, the script's derived decade
(`year - year mod 10`) is `floor(year / 10) * 10`. -/
theorem decade_eq_floor (y : Int) (hy : 0 ≤ y) :
    y - y.tmod 10 = y / 10 * 10 := by
  rw [Int.tmod_eq_emod hy (by norm_num)]
  omega

/-- An open group's key and accumulator form an entry of the list. -/
theorem findVal_some_mem {κ β : Type} [DecidableEq κ] (k : κ) (v : β) :
    ∀ l : List (κ × β), findVal k l = some v → (k, v) ∈ l := by
  intro l
  induction l with
  | nil => intro h; cases h
  | cons e rest ih =>
    intro h
    by_cases he : e.1 = k
    · have hv : e.2 = v := by
        have := h
        simpa [findVal, he] using this
      have : (k, v) = e := by
        rw [← he, ← hv]
      exact this ▸ List.mem_cons_self e rest
    · have h' : findVal k rest = some v := by simpa [findVal, he] using h
      exact List.mem_cons_of_mem _ (ih h')

/-! ### Claims C5 and C6: aggregation pipelines -/

/-- C6: for every collection state, every group of the average-price
aggregation reports as `bookCount` the number of documents of its genre and
as `averagePrice` the arithmetic mean — sum divided by count — of exactly
those documents' prices. -/
theorem avgPriceByGenre_mean (c : Collection) :
    ∀ g ∈ avgPriceByGenre c,
      g.bookCount = (c.filter (fun b => decide (b.genre = g._id))).length
      ∧ 0 < g.bookCount
      ∧ g.averagePrice =
          ((c.filter (fun b => decide (b.genre = g._id))).map Book.price).sum /
            (g.bookCount : ℚ) := by
  intro g hg
  rw [avgPriceByGenre, List.mem_insertionSort] at hg
  rcases List.mem_map.mp hg with ⟨e, he, rfl⟩
  obtain ⟨m, ms, hfil, hv⟩ := groupFold_mem Book.genre _ _ c e.1 e.2 he
  have he2 : e.2 = (m.price + (ms.map Book.price).sum, 1 + ms.length) := by
    rw [hv]
    exact foldl_avg ms m.price 1
  have h1 : e.2.1 = m.price + (ms.map Book.price).sum := by rw [he2]
  have h2 : e.2.2 = 1 + ms.length := by rw [he2]
  refine ⟨?_, ?_, ?_⟩
  · show e.2.2 = _
    rw [hfil, h2, List.length_cons]
    omega
  · show 0 < e.2.2
    rw [h2]
    omega
  · show e.2.1 / ((e.2.2 : Nat) : ℚ) = _
    rw [hfil, h1]
    simp [h2]

/-- C6, witness: on a one-document collection the single genre group carries
the document's price as its average and 1 as its count. -/
theorem avgPriceByGenre_mean_witness :
    (⟨"Fiction", (10 : ℚ) / ((1 : Nat) : ℚ), 1⟩ : GenreStats).bookCount =
      (([⟨1, "A", "a", "Fiction", 1998, 10, true⟩] : Collection).filter
        (fun b => decide (b.genre =
          (⟨"Fiction", (10 : ℚ) / ((1 : Nat) : ℚ), 1⟩ : GenreStats)._id))).length :=
  (avgPriceByGenre_mean [⟨1, "A", "a", "Fiction", 1998, 10, true⟩]
    ⟨"Fiction", (10 : ℚ) / ((1 : Nat) : ℚ), 1⟩
    (by simp [avgPriceByGenre, groupFold, groupStep, updateGroup,
      List.insertionSort, List.orderedInsert])).1

/-- C5: for every collection state whose years are non-negative, the decade
aggregation assigns every document to a group keyed `floor(year/10)*10`
containing its title, and every group's accumulated list is exactly the
titles, in collection order, of the documents whose derived decade is the
group key. -/
theorem booksByDecade_correct (c : Collection)
    (h : ∀ b ∈ c, 0 ≤ b.published_year) :
    (∀ b ∈ c, ∃ g ∈ booksByDecade c,
        g._id = b.published_year / 10 * 10 ∧ b.title ∈ g.books)
    ∧ (∀ g ∈ booksByDecade c,
        g.books =
          (c.filter (fun b =>
            decide (b.published_year / 10 * 10 = g._id))).map Book.title
        ∧ g.bookCount =
          (c.filter (fun b =>
            decide (b.published_year / 10 * 10 = g._id))).length) := by
  have hfil_eq : ∀ k : Int,
      c.filter (fun b => decide (decade b = k)) =
        c.filter (fun b => decide (b.published_year / 10 * 10 = k)) := by
    intro k
    apply List.filter_congr
    intro b hb
    have hd := decade_eq_floor b.published_year (h b hb)
    simp [decade, hd]
  constructor
  · intro b hb
    have hbfil : b ∈ c.filter (fun x => decide (decade x = decade b)) :=
      List.mem_filter.mpr ⟨hb, by simp⟩
    cases hfil : c.filter (fun x => decide (decade x = decade b)) with
    | nil => rw [hfil] at hbfil; cases hbfil
    | cons m ms =>
      have hfv := foldl_groupStep_none decade
        (fun b => ((1, [b.title]) : Nat × List String))
        (fun v b => (v.1 + 1, v.2 ++ [b.title])) (decade b) c [] rfl
      rw [hfil] at hfv
      have hentry := findVal_some_mem (decade b) _ _ hfv
      have hgmem : (⟨decade b,
          (List.foldl (fun v b => (v.1 + 1, v.2 ++ [b.title])) (1, [m.title]) ms).1,
          (List.foldl (fun v b => (v.1 + 1, v.2 ++ [b.title])) (1, [m.title]) ms).2⟩ :
            DecadeGroup) ∈ booksByDecade c := by
        rw [booksByDecade, List.mem_insertionSort]
        exact List.mem_map_of_mem _ hentry
      refine ⟨_, hgmem, ?_, ?_⟩
      · show decade b = b.published_year / 10 * 10
        exact (by simpa [decade] using decade_eq_floor b.published_year (h b hb))
      · show b.title ∈
          (List.foldl (fun v b => (v.1 + 1, v.2 ++ [b.title])) (1, [m.title]) ms).2
        rw [foldl_push]
        have : b.title ∈ (m :: ms).map Book.title := by
          rw [← hfil]
          exact List.mem_map_of_mem _ hbfil
        simpa using this
  · intro g hg
    rw [booksByDecade, List.mem_insertionSort] at hg
    rcases List.mem_map.mp hg with ⟨e, he, rfl⟩
    obtain ⟨m, ms, hfil, hv⟩ := groupFold_mem decade _ _ c e.1 e.2 he
    have he2 : e.2 = (1 + ms.length, [m.title] ++ ms.map Book.title) := by
      rw [hv]
      exact foldl_push ms 1 [m.title]
    constructor
    · show e.2.2 = _
      rw [← hfil_eq, hfil, he2]
      simp
    · show e.2.1 = _
      rw [← hfil_eq, hfil, he2]
      simp
      omega

/-- C5, witness: on a concrete one-document collection with year 1998, the
document lands in the group keyed 1990 with its title accumulated. -/
theorem booksByDecade_correct_witness :
    ∃ g ∈ booksByDecade [⟨1, "A", "a", "g", 1998, 1, true⟩],
      g._id = (⟨1, "A", "a", "g", 1998, 1, true⟩ : Book).published_year / 10 * 10
      ∧ (⟨1, "A", "a", "g", 1998, 1, true⟩ : Book).title ∈ g.books :=
  (booksByDecade_correct [⟨1, "A", "a", "g", 1998, 1, true⟩] (by decide)).1
    ⟨1, "A", "a", "g", 1998, 1, true⟩ (by decide)

/-! ### Claim C1: ascending and descending sorted reads -/

/-- Two permutations of each other that are both sorted by weakly decreasing
key are equal when the keys are distinct. -/
theorem eq_of_perm_sorted_nodup_key {α β : Type} [LinearOrder β] (f : α → β) :
    ∀ (l₁ l₂ : List α), l₁.Perm l₂ →
      l₁.Pairwise (fun a b => f b ≤ f a) → l₂.Pairwise (fun a b => f b ≤ f a) →
      (l₁.map f).Nodup → l₁ = l₂ := by
  intro l₁
  induction l₁ with
  | nil =>
    intro l₂ hp _ _ _
    exact hp.nil_eq
  | cons a t₁ ih =>
    intro l₂ hp hs₁ hs₂ hnd
    cases l₂ with
    | nil => cases hp.eq_nil
    | cons b t₂ =>
      have hab : a = b := by
        by_contra hne
        have ha2 : a ∈ b :: t₂ := hp.mem_iff.mp (List.mem_cons_self a t₁)
        have hb1 : b ∈ a :: t₁ := hp.mem_iff.mpr (List.mem_cons_self b t₂)
        have ha2' : a ∈ t₂ := by
          rcases List.mem_cons.mp ha2 with h | h
          · exact absurd h hne
          · exact h
        have hb1' : b ∈ t₁ := by
          rcases List.mem_cons.mp hb1 with h | h
          · exact absurd h.symm hne
          · exact h
        have h1 : f a ≤ f b := (List.pairwise_cons.mp hs₂).1 a ha2'
        have h2 : f b ≤ f a := (List.pairwise_cons.mp hs₁).1 b hb1'
        have hfb : f b ∈ t₁.map f := List.mem_map_of_mem f hb1'
        rw [List.map_cons, List.nodup_cons] at hnd
        exact hnd.1 ((le_antisymm h1 h2) ▸ hfb)
      subst hab
      have ht : t₁.Perm t₂ := hp.cons_inv
      have hnd' : (t₁.map f).Nodup := by
        rw [List.map_cons, List.nodup_cons] at hnd
        exact hnd.2
      rw [ih t₂ ht (List.pairwise_cons.mp hs₁).2 (List.pairwise_cons.mp hs₂).2 hnd']

/-- C1, counterexample: on a six-document collection with distinct prices the
ascending read returns the five cheapest and the descending read the five
most expensive documents, which are different sets.  The claim as stated
(for every collection state) is therefore false. -/
theorem sortedDesc_not_same_set :
    ¬ (∀ x ∈ sortedDesc
        [⟨1, "B1", "a", "g", 2000, 1, true⟩,
         ⟨2, "B2", "a", "g", 2000, 2, true⟩,
         ⟨3, "B3", "a", "g", 2000, 3, true⟩,
         ⟨4, "B4", "a", "g", 2000, 4, true⟩,
         ⟨5, "B5", "a", "g", 2000, 5, true⟩,
         ⟨6, "B6", "a", "g", 2000, 6, true⟩],
      x ∈ sortedAsc
        [⟨1, "B1", "a", "g", 2000, 1, true⟩,
         ⟨2, "B2", "a", "g", 2000, 2, true⟩,
         ⟨3, "B3", "a", "g", 2000, 3, true⟩,
         ⟨4, "B4", "a", "g", 2000, 4, true⟩,
         ⟨5, "B5", "a", "g", 2000, 5, true⟩,
         ⟨6, "B6", "a", "g", 2000, 6, true⟩]) := by
  decide

/-- C1 (amended): for every collection state with at most 5 documents — so
that the caps at 5 results do not cut different ends of the sorted order —
and pairwise-distinct prices — so that the order on ties is determined — the
descending-price read is exactly the reverse of the ascending-price read, and
in particular both return the same set of documents. -/
theorem sortedDesc_reverse_sortedAsc (c : Collection)
    (hlen : c.length ≤ 5) (hnd : (c.map Book.price).Nodup) :
    sortedDesc c = (sortedAsc c).reverse
    ∧ ∀ x, x ∈ sortedDesc c ↔ x ∈ sortedAsc c := by
  have hlenA : (c.insertionSort priceLe).length ≤ 5 := by
    simpa using hlen
  have hlenD : (c.insertionSort priceGe).length ≤ 5 := by
    simpa using hlen
  have hkey : c.insertionSort priceGe = (c.insertionSort priceLe).reverse := by
    refine eq_of_perm_sorted_nodup_key Book.price _ _ ?_ ?_ ?_ ?_
    · exact (List.perm_insertionSort priceGe c).trans
        ((List.perm_insertionSort priceLe c).symm.trans
          (List.reverse_perm (c.insertionSort priceLe)).symm)
    · exact List.sorted_insertionSort priceGe c
    · rw [List.pairwise_reverse]
      exact List.sorted_insertionSort priceLe c
    · have hperm : ((c.insertionSort priceGe).map Book.price).Perm
          (c.map Book.price) :=
        (List.perm_insertionSort priceGe c).map Book.price
      exact (hperm.nodup_iff).mpr hnd
  have hmain : sortedDesc c = (sortedAsc c).reverse := by
    rw [sortedDesc, sortedAsc, List.take_of_length_le hlenA,
      List.take_of_length_le hlenD, hkey, List.map_reverse]
  exact ⟨hmain, fun x => by simp [hmain]⟩

/-- C1, witness: the amended claim holds on a concrete three-document
collection with distinct prices. -/
theorem sortedDesc_reverse_sortedAsc_witness :
    sortedDesc
        [⟨1, "B1", "a", "g", 2000, 1, true⟩,
         ⟨2, "B2", "a", "g", 2000, 2, true⟩,
         ⟨3, "B3", "a", "g", 2000, 3, true⟩] =
      (sortedAsc
        [⟨1, "B1", "a", "g", 2000, 1, true⟩,
         ⟨2, "B2", "a", "g", 2000, 2, true⟩,
         ⟨3, "B3", "a", "g", 2000, 3, true⟩]).reverse :=
  (sortedDesc_reverse_sortedAsc _ (by decide) (by decide)).1

end Bookstore
